import Mathlib

/-!
Verification of the LED-matrix Game of Life core (`src/main.rs`).

The grid `[[u8; 16]; 8]` is modelled as a total function `Nat → Nat → Nat`;
all accesses made by the embedded functions stay inside `[0,8) × [0,16)`,
matching the Rust array bounds.  The in-place mutation of the Rust loops is
modelled by threading the grid through left folds over the visited index
lists, one fold per source loop nest.  Machine integers are modelled as
`Nat` (cell bytes, counts) and `Int` (the `i32` frame countdown).
-/

/-- A grid of per-cell state bytes, indexed by (row, column). -/
abbrev Grid : Type := Nat → Nat → Nat

/-- Point update of a single cell, modelling `state[row][col] = v`. -/
def writeCell (g : Grid) (row col : Nat) (v : Nat) : Grid :=
  fun r c => if r = row ∧ c = col then v else g r c

/-- The Rust inclusive range `a..=b` (empty when `a > b`). -/
def rangeIncl (a b : Nat) : List Nat :=
  List.range' a (b + 1 - a)

/-- Embedding of `count_neighbors_bounded`: visits
`row.saturating_sub(1)..=min(7,row+1)` × `col.saturating_sub(1)..=min(15,col+1)`,
skips the center cell, and sums `state[r][c] & 1`. -/
def count_neighbors_bounded (state : Grid) (row col : Nat) : Nat :=
  (rangeIncl (row - 1) (min 7 (row + 1))).foldl (fun total r =>
    (rangeIncl (col - 1) (min 15 (col + 1))).foldl (fun total c =>
      if r = row ∧ c = col then total
      else total + (state r c &&& 1)) total) 0

/-- Embedding of `count_neighbors_torus`: visits offsets `7..=9` × `15..=17`,
skips `(8, 16)`, and sums `state[(row+roff)%8][(col+coff)%16] & 1`. -/
def count_neighbors_torus (state : Grid) (row col : Nat) : Nat :=
  (rangeIncl 7 9).foldl (fun total roff =>
    (rangeIncl 15 17).foldl (fun total coff =>
      if roff = 8 ∧ coff = 16 then total
      else total + (state ((row + roff) % 8) ((col + coff) % 16) &&& 1)) total) 0

/-- One first-pass body of `step_state` at a single coordinate: sets the
pending bit (`|= 0b10`) when the cell will be alive next generation. -/
def evalStep (g : Grid) (rc : Nat × Nat) : Grid :=
  if g rc.1 rc.2 &&& 1 = 0 ∧ count_neighbors_torus g rc.1 rc.2 = 3 then
    writeCell g rc.1 rc.2 (g rc.1 rc.2 ||| 2)
  else if g rc.1 rc.2 &&& 1 = 1 ∧
      (count_neighbors_torus g rc.1 rc.2 = 2 ∨ count_neighbors_torus g rc.1 rc.2 = 3) then
    writeCell g rc.1 rc.2 (g rc.1 rc.2 ||| 2)
  else g

/-- One second-pass body of `step_state` at a single coordinate:
`state[row][col] = state[row][col] >> 1`. -/
def commitStep (g : Grid) (rc : Nat × Nat) : Grid :=
  writeCell g rc.1 rc.2 (g rc.1 rc.2 >>> 1)

/-- The coordinates visited by the `for row in 0..8 { for col in 0..16 }`
loop nests, in visitation order. -/
def coords : List (Nat × Nat) :=
  (List.range 8).flatMap (fun r => (List.range 16).map (fun c => (r, c)))

/-- Embedding of `step_state`: the evaluation pass followed by the commit
(shift-down) pass, each a fold over the grid coordinates in loop order. -/
def step_state (g : Grid) : Grid :=
  coords.foldl commitStep (coords.foldl evalStep g)

/-- One body of `show_state` at a single coordinate:
`image[row][col] = if state[row][col] == 1 {15} else {0}`. -/
def renderCell (state : Grid) (img : Grid) (rc : Nat × Nat) : Grid :=
  writeCell img rc.1 rc.2 (if state rc.1 rc.2 = 1 then 15 else 0)

/-- Embedding of `show_state`: writes every cell of the framebuffer. -/
def show_state (state image : Grid) : Grid :=
  coords.foldl (renderCell state) image

/-- The hard-coded initial pattern from `main`. -/
def initRows : List (List Nat) :=
  [[0, 0, 0, 0, 0, 0, 0, 0, 0, 0, 0, 0, 0, 0, 0, 0],
   [0, 0, 0, 0, 0, 1, 0, 0, 0, 0, 0, 0, 0, 0, 0, 0],
   [0, 0, 0, 0, 1, 0, 0, 0, 0, 0, 0, 0, 0, 0, 0, 0],
   [0, 1, 1, 0, 0, 1, 0, 1, 1, 1, 0, 0, 0, 0, 0, 0],
   [0, 0, 0, 1, 1, 1, 1, 0, 0, 1, 0, 0, 0, 0, 0, 0],
   [0, 1, 1, 0, 0, 1, 0, 1, 1, 1, 0, 0, 0, 0, 0, 0],
   [0, 0, 0, 0, 1, 0, 0, 0, 0, 0, 0, 0, 0, 0, 0, 0],
   [0, 0, 0, 1, 0, 0, 0, 0, 0, 0, 0, 0, 0, 0, 0, 0]]

/-- The initial grid of `main`, as a `Grid`. -/
def initState : Grid :=
  fun r c => (initRows.getD r []).getD c 0

/-- The all-zero framebuffer `[[0; 16]; 8]` from `setup`. -/
def zeroImage : Grid := fun _ _ => 0

/-- A grid whose only live cell is at `(0, 0)`. -/
def g00 : Grid := fun r c => if r = 0 ∧ c = 0 then 1 else 0

/-- The at-rest invariant: every (in-bounds) cell value is exactly 0 or 1. -/
def AtRest (g : Grid) : Prop :=
  ∀ r, r < 8 → ∀ c, c < 16 → g r c = 0 ∨ g r c = 1

/-- The grid after `n` calls to `step_state` starting from the hard-coded
initial pattern. -/
def stepN : Nat → Grid
  | 0 => initState
  | n + 1 => step_state (stepN n)

/-- Setting the pending bit does not change the alive bit. -/
theorem or_two_and_one (x : Nat) : (x ||| 2) &&& 1 = x &&& 1 := by
  simp only [Nat.and_one_is_mod]
  have h : (x ||| 2) % 2 = 1 ↔ x % 2 = 1 ∨ (2 : Nat) % 2 = 1 := Nat.or_mod_two_eq_one
  have h1 := Nat.mod_two_eq_zero_or_one x
  have h2 := Nat.mod_two_eq_zero_or_one (x ||| 2)
  rcases h1 with h1 | h1 <;> rcases h2 with h2 | h2 <;> simp [h1, h2] at h ⊢

/-- Setting the pending bit does not change the cell value mod 2. -/
theorem or_two_mod_two (x : Nat) : (x ||| 2) % 2 = x % 2 := by
  have h := or_two_and_one x
  simpa [Nat.and_one_is_mod] using h

/-- Writing a cell leaves every other cell unchanged. -/
theorem writeCell_other (g : Grid) (row col : Nat) (v : Nat) (r c : Nat)
    (h : ¬(r = row ∧ c = col)) : writeCell g row col v r c = g r c := by
  simp [writeCell, h]

/-- Writing a cell makes that cell hold the written value. -/
theorem writeCell_same (g : Grid) (row col : Nat) (v : Nat) :
    writeCell g row col v row col = v := by
  simp [writeCell]

/-- The evaluation pass touches only the cell it is visiting. -/
theorem evalStep_other (g : Grid) (rc : Nat × Nat) (r c : Nat)
    (h : ¬(r = rc.1 ∧ c = rc.2)) : evalStep g rc r c = g r c := by
  unfold evalStep
  split_ifs <;> simp [writeCell_other, h]

/-- The commit pass touches only the cell it is visiting. -/
theorem commitStep_other (g : Grid) (rc : Nat × Nat) (r c : Nat)
    (h : ¬(r = rc.1 ∧ c = rc.2)) : commitStep g rc r c = g r c := by
  unfold commitStep
  simp [writeCell_other, h]

/-- The render pass touches only the cell it is visiting. -/
theorem renderCell_other (st g : Grid) (rc : Nat × Nat) (r c : Nat)
    (h : ¬(r = rc.1 ∧ c = rc.2)) : renderCell st g rc r c = g r c := by
  unfold renderCell
  simp [writeCell_other, h]

/-- A fold of cell-local updates leaves unvisited cells unchanged. -/
theorem foldl_local_notmem (f : Grid → Nat × Nat → Grid)
    (hf : ∀ g rc r c, ¬(r = rc.1 ∧ c = rc.2) → f g rc r c = g r c) :
    ∀ (l : List (Nat × Nat)) (g : Grid) (r c : Nat),
      (r, c) ∉ l → (l.foldl f g) r c = g r c := by
  intro l
  induction l with
  | nil => intro g r c _; rfl
  | cons a t ih =>
    intro g r c hm
    rw [List.mem_cons] at hm
    push_neg at hm
    rw [List.foldl_cons, ih _ _ _ hm.2, hf]
    intro hrc
    exact hm.1 (by cases a; simp_all)

/-- The evaluation pass never changes any alive bit. -/
theorem evalStep_and_one (g : Grid) (rc : Nat × Nat) (r c : Nat) :
    evalStep g rc r c &&& 1 = g r c &&& 1 := by
  by_cases h : r = rc.1 ∧ c = rc.2
  · obtain ⟨h1, h2⟩ := h
    subst h1; subst h2
    unfold evalStep
    split_ifs <;> simp [writeCell_same, or_two_and_one, or_two_mod_two]
  · rw [evalStep_other g rc r c h]

/-- A whole evaluation fold never changes any alive bit. -/
theorem eval_foldl_and_one :
    ∀ (l : List (Nat × Nat)) (g : Grid) (r c : Nat),
      (l.foldl evalStep g) r c &&& 1 = g r c &&& 1 := by
  intro l
  induction l with
  | nil => intro g r c; rfl
  | cons a t ih =>
    intro g r c
    rw [List.foldl_cons, ih, evalStep_and_one]

/-- Toroidal neighbor counts only read alive bits, so they agree on grids
with pointwise-equal alive bits. -/
theorem count_torus_congr (g h : Grid)
    (he : ∀ r c, h r c &&& 1 = g r c &&& 1) (row col : Nat) :
    count_neighbors_torus h row col = count_neighbors_torus g row col := by
  simp [count_neighbors_torus, rangeIncl, List.range', he]

/-- The evaluation step at a coordinate depends only on the alive bits of
the grid and the full value of the visited cell. -/
theorem evalStep_congr (g h : Grid) (rc : Nat × Nat)
    (he : ∀ r c, h r c &&& 1 = g r c &&& 1)
    (hv : h rc.1 rc.2 = g rc.1 rc.2) :
    evalStep h rc rc.1 rc.2 = evalStep g rc rc.1 rc.2 := by
  unfold evalStep
  rw [count_torus_congr g h he, hv]
  split_ifs <;> simp [writeCell_same, hv]

/-- The visited-coordinate list contains every in-bounds coordinate. -/
theorem mem_coords : ∀ r, r < 8 → ∀ c, c < 16 → (r, c) ∈ coords := by
  intro r hr c hc
  unfold coords
  rw [List.mem_flatMap]
  exact ⟨r, List.mem_range.mpr hr, List.mem_map.mpr ⟨c, List.mem_range.mpr hc, rfl⟩⟩

set_option maxRecDepth 4000 in
/-- The visited-coordinate list has no duplicates. -/
theorem coords_nodup : coords.Nodup := by
  decide

/-- The value of the evaluation fold at a coordinate visited exactly once is
the single-coordinate evaluation step applied to the starting grid. -/
theorem eval_foldl_mem :
    ∀ (l : List (Nat × Nat)) (g : Grid) (r c : Nat),
      (r, c) ∈ l → l.Nodup → (l.foldl evalStep g) r c = evalStep g (r, c) r c := by
  intro l
  induction l with
  | nil => intro g r c hm _; cases hm
  | cons a t ih =>
    intro g r c hm hnd
    rw [List.nodup_cons] at hnd
    rw [List.foldl_cons]
    rcases List.mem_cons.mp hm with ha | ht
    · rw [← ha] at hnd ⊢
      exact foldl_local_notmem evalStep evalStep_other t (evalStep g (r, c)) r c hnd.1
    · have hne : ¬(r = a.1 ∧ c = a.2) := by
        intro hrc
        apply hnd.1
        have : a = (r, c) := by cases a; simp_all
        rw [this]; exact ht
      rw [ih _ _ _ ht hnd.2]
      exact evalStep_congr g (evalStep g a) (r, c)
        (fun r c => evalStep_and_one g a r c) (evalStep_other g a r c hne)

/-- The value of the commit fold at a coordinate visited exactly once is the
starting value shifted down by one bit. -/
theorem commit_foldl_mem :
    ∀ (l : List (Nat × Nat)) (g : Grid) (r c : Nat),
      (r, c) ∈ l → l.Nodup → (l.foldl commitStep g) r c = g r c >>> 1 := by
  intro l
  induction l with
  | nil => intro g r c hm _; cases hm
  | cons a t ih =>
    intro g r c hm hnd
    rw [List.nodup_cons] at hnd
    rw [List.foldl_cons]
    rcases List.mem_cons.mp hm with ha | ht
    · rw [← ha] at hnd ⊢
      rw [foldl_local_notmem commitStep commitStep_other t _ r c hnd.1]
      unfold commitStep
      rw [writeCell_same]
    · have hne : ¬(r = a.1 ∧ c = a.2) := by
        intro hrc
        apply hnd.1
        have : a = (r, c) := by cases a; simp_all
        rw [this]; exact ht
      rw [ih _ _ _ ht hnd.2, commitStep_other g a r c hne]

/-- The value of the render fold at a visited coordinate is determined by the
automaton grid alone (the last write wins and every write is the same). -/
theorem render_foldl_mem (st : Grid) :
    ∀ (l : List (Nat × Nat)) (img : Grid) (r c : Nat),
      (r, c) ∈ l →
      (l.foldl (renderCell st) img) r c = (if st r c = 1 then 15 else 0) := by
  intro l
  induction l with
  | nil => intro img r c hm; cases hm
  | cons a t ih =>
    intro img r c hm
    rw [List.foldl_cons]
    by_cases ht : (r, c) ∈ t
    · exact ih _ _ _ ht
    · rcases List.mem_cons.mp hm with ha | ha
      · rw [foldl_local_notmem (renderCell st) (renderCell_other st) t _ r c ht, ← ha]
        unfold renderCell
        rw [writeCell_same]
      · exact absurd ha ht

/-- Pointwise description of `step_state` at an in-bounds coordinate. -/
theorem step_state_cell (g : Grid) (r c : Nat) (hr : r < 8) (hc : c < 16) :
    step_state g r c = evalStep g (r, c) r c >>> 1 := by
  unfold step_state
  rw [commit_foldl_mem coords _ r c (mem_coords r hr c hc) coords_nodup,
    eval_foldl_mem coords g r c (mem_coords r hr c hc) coords_nodup]

/-- The inner column loop of the clamped counter adds at most one per
visited column. -/
theorem innerB_le (g : Grid) (row col r : Nat) :
    ∀ (cl : List Nat) (t : Nat),
      cl.foldl (fun total c => if r = row ∧ c = col then total
        else total + (g r c &&& 1)) t ≤ t + cl.length := by
  intro cl
  induction cl with
  | nil => intro t; simp
  | cons c cs ih =>
    intro t
    rw [List.foldl_cons, List.length_cons]
    have h1 : (if r = row ∧ c = col then t else t + (g r c &&& 1)) ≤ t + 1 := by
      split_ifs
      · omega
      · have := @Nat.and_le_right (g r c) 1
        omega
    have h2 := ih (if r = row ∧ c = col then t else t + (g r c &&& 1))
    omega

/-- On the center row, the inner column loop skips the center cell, so it
adds strictly fewer than `cl.length`. -/
theorem innerB_le_mem (g : Grid) (row col r : Nat) (hre : r = row) :
    ∀ (cl : List Nat) (t : Nat), col ∈ cl →
      cl.foldl (fun total c => if r = row ∧ c = col then total
        else total + (g r c &&& 1)) t + 1 ≤ t + cl.length := by
  intro cl
  induction cl with
  | nil => intro t hm; cases hm
  | cons c cs ih =>
    intro t hm
    rw [List.foldl_cons, List.length_cons]
    by_cases hcc : c = col
    · have hskip : (if r = row ∧ c = col then t else t + (g r c &&& 1)) = t := by
        simp [hre, hcc]
      rw [hskip]
      have := innerB_le g row col r cs t
      omega
    · have hm2 : col ∈ cs := by
        rcases List.mem_cons.mp hm with h | h
        · exact absurd h.symm hcc
        · exact h
      have h1 : (if r = row ∧ c = col then t else t + (g r c &&& 1)) ≤ t + 1 := by
        split_ifs
        · omega
        · have := @Nat.and_le_right (g r c) 1
          omega
      have h2 := ih (if r = row ∧ c = col then t else t + (g r c &&& 1)) hm2
      omega

/-- The outer row loop of the clamped counter adds at most `cl.length` per
visited row. -/
theorem outerB_le (g : Grid) (row col : Nat) (cl : List Nat) :
    ∀ (rl : List Nat) (t : Nat),
      rl.foldl (fun total r => cl.foldl (fun total c =>
        if r = row ∧ c = col then total else total + (g r c &&& 1)) total) t
        ≤ t + rl.length * cl.length := by
  intro rl
  induction rl with
  | nil => intro t; simp
  | cons r rs ih =>
    intro t
    rw [List.foldl_cons, List.length_cons, Nat.succ_mul]
    have h1 := innerB_le g row col r cl t
    have h2 := ih (cl.foldl (fun total c =>
      if r = row ∧ c = col then total else total + (g r c &&& 1)) t)
    omega

/-- When the visited row range contains the center row and the visited
column range contains the center column, the clamped count is strictly less
than the number of visited cells. -/
theorem outerB_le_mem (g : Grid) (row col : Nat) (cl : List Nat)
    (hcol : col ∈ cl) :
    ∀ (rl : List Nat) (t : Nat), row ∈ rl →
      rl.foldl (fun total r => cl.foldl (fun total c =>
        if r = row ∧ c = col then total else total + (g r c &&& 1)) total) t + 1
        ≤ t + rl.length * cl.length := by
  intro rl
  induction rl with
  | nil => intro t hm; cases hm
  | cons r rs ih =>
    intro t hm
    rw [List.foldl_cons, List.length_cons, Nat.succ_mul]
    by_cases hrr : r = row
    · have h1 := innerB_le_mem g row col r hrr cl t hcol
      have h2 := outerB_le g row col cl rs (cl.foldl (fun total c =>
        if r = row ∧ c = col then total else total + (g r c &&& 1)) t)
      omega
    · have hm2 : row ∈ rs := by
        rcases List.mem_cons.mp hm with h | h
        · exact absurd h.symm hrr
        · exact h
      have h1 := innerB_le g row col r cl t
      have h2 := ih (cl.foldl (fun total c =>
        if r = row ∧ c = col then total else total + (g r c &&& 1)) t) hm2
      omega

/-- The clamped counter is bounded by the number of visited cells minus the
skipped center. -/
theorem count_bounded_lt (g : Grid) (row col : Nat) (hr : row < 8) (hc : col < 16) :
    count_neighbors_bounded g row col + 1 ≤
      (min 7 (row + 1) + 1 - (row - 1)) * (min 15 (col + 1) + 1 - (col - 1)) := by
  have hrow : row ∈ rangeIncl (row - 1) (min 7 (row + 1)) := by
    simp only [rangeIncl, List.mem_range'_1]
    omega
  have hcol : col ∈ rangeIncl (col - 1) (min 15 (col + 1)) := by
    simp only [rangeIncl, List.mem_range'_1]
    omega
  have h := outerB_le_mem g row col (rangeIncl (col - 1) (min 15 (col + 1))) hcol
    (rangeIncl (row - 1) (min 7 (row + 1))) 0 hrow
  unfold count_neighbors_bounded
  simp only [rangeIncl, List.length_range'] at h ⊢
  omega

/-- The toroidal counter visits exactly eight neighbor offsets. -/
theorem count_torus_le (g : Grid) (row col : Nat) :
    count_neighbors_torus g row col ≤ 8 := by
  simp [count_neighbors_torus, rangeIncl, List.range', Nat.and_one_is_mod]
  omega

/-- The hard-coded initial pattern satisfies the at-rest invariant. -/
theorem atRest_init : AtRest initState := by
  unfold AtRest
  decide

/-- A single `step_state` call restores the at-rest invariant. -/
theorem step_state_preserves_atRest (g : Grid) (hg : AtRest g) :
    AtRest (step_state g) := by
  intro r hr c hc
  rw [step_state_cell g r c hr hc]
  rcases hg r hr c hc with h0 | h0 <;>
    simp only [evalStep] <;> split_ifs <;> simp [writeCell_same, h0]

/-- C1: for every at-rest grid and in-bounds coordinate, after one
`step_state` call the cell's alive bit is 1 iff in the pre-step grid the
cell was dead with exactly 3 toroidal live neighbors, or alive with 2 or 3
toroidal live neighbors; otherwise the alive bit is 0 (the cell is dead). -/
theorem step_state_rule (g : Grid) (row col : Nat)
    (hg : AtRest g) (hr : row < 8) (hc : col < 16) :
    (step_state g row col &&& 1 = 1 ↔
      ((g row col &&& 1 = 0 ∧ count_neighbors_torus g row col = 3) ∨
       (g row col &&& 1 = 1 ∧
        (count_neighbors_torus g row col = 2 ∨ count_neighbors_torus g row col = 3)))) := by
  rw [step_state_cell g row col hr hc]
  rcases hg row hr col hc with h0 | h0 <;>
    by_cases h3 : count_neighbors_torus g row col = 3 <;>
      by_cases h2 : count_neighbors_torus g row col = 2 <;>
        simp [evalStep, writeCell_same, h0, h3, h2]

/-- C1 witness: the concrete initial pattern at cell (1, 5). -/
theorem step_state_rule_witness :
    AtRest initState ∧ 1 < 8 ∧ 5 < 16 ∧
      (step_state initState 1 5 &&& 1 = 1 ↔
        ((initState 1 5 &&& 1 = 0 ∧ count_neighbors_torus initState 1 5 = 3) ∨
         (initState 1 5 &&& 1 = 1 ∧
          (count_neighbors_torus initState 1 5 = 2 ∨
           count_neighbors_torus initState 1 5 = 3)))) :=
  ⟨atRest_init, by norm_num, by norm_num,
    step_state_rule initState 1 5 atRest_init (by norm_num) (by norm_num)⟩

/-- C2: every grid reachable from the hard-coded initial pattern by repeated
`step_state` calls satisfies the at-rest invariant (including the initial
pattern itself, at `n = 0`). -/
theorem reachable_atRest (n : Nat) : AtRest (stepN n) := by
  induction n with
  | zero => exact atRest_init
  | succ n ih => exact step_state_preserves_atRest _ ih

set_option maxRecDepth 8000 in
/-- C4: on the grid whose only live cell is at (0,0), the toroidal counter
is nonzero exactly at the eight toroidal neighbors of (0,0). -/
theorem torus_wraparound_origin :
    ∀ r, r < 8 → ∀ c, c < 16 →
      (0 < count_neighbors_torus g00 r c ↔
        (r, c) ∈ [((7 : Nat), (15 : Nat)), (7, 0), (7, 1), (0, 15), (0, 1),
          (1, 15), (1, 0), (1, 1)]) := by
  decide

/-- C4 witness: the wrapped corner (7, 15) sees the live cell at (0, 0). -/
theorem torus_wraparound_origin_witness :
    7 < 8 ∧ 15 < 16 ∧
      (0 < count_neighbors_torus g00 7 15 ↔
        ((7 : Nat), (15 : Nat)) ∈ [((7 : Nat), (15 : Nat)), (7, 0), (7, 1), (0, 15), (0, 1),
          (1, 15), (1, 0), (1, 1)]) :=
  ⟨by norm_num, by norm_num, torus_wraparound_origin 7 (by norm_num) 15 (by norm_num)⟩

/-- C5: both neighbor counters stay in [0,8] at in-bounds coordinates, and
the clamped counter is at most 3 at corners and at most 5 at non-corner
edge cells, for every grid. -/
theorem neighbor_count_range (g : Grid) (row col : Nat)
    (hr : row < 8) (hc : col < 16) :
    count_neighbors_bounded g row col ≤ 8 ∧
    count_neighbors_torus g row col ≤ 8 ∧
    (((row = 0 ∨ row = 7) ∧ (col = 0 ∨ col = 15)) →
      count_neighbors_bounded g row col ≤ 3) ∧
    (((row = 0 ∨ row = 7 ∨ col = 0 ∨ col = 15) ∧
        ¬((row = 0 ∨ row = 7) ∧ (col = 0 ∨ col = 15))) →
      count_neighbors_bounded g row col ≤ 5) := by
  have hb := count_bounded_lt g row col hr hc
  refine ⟨?_, count_torus_le g row col, ?_, ?_⟩
  · have h1 : min 7 (row + 1) + 1 - (row - 1) ≤ 3 := by omega
    have h2 : min 15 (col + 1) + 1 - (col - 1) ≤ 3 := by omega
    have h3 := Nat.mul_le_mul h1 h2
    omega
  · intro hcorner
    have h1 : min 7 (row + 1) + 1 - (row - 1) ≤ 2 := by omega
    have h2 : min 15 (col + 1) + 1 - (col - 1) ≤ 2 := by omega
    have h3 := Nat.mul_le_mul h1 h2
    omega
  · intro hedge
    by_cases hrow : row = 0 ∨ row = 7
    · have hcol2 : ¬(col = 0 ∨ col = 15) := fun h => hedge.2 ⟨hrow, h⟩
      have h1 : min 7 (row + 1) + 1 - (row - 1) ≤ 2 := by omega
      have h2 : min 15 (col + 1) + 1 - (col - 1) ≤ 3 := by omega
      have h3 := Nat.mul_le_mul h1 h2
      omega
    · have hcol2 : col = 0 ∨ col = 15 := by
        rcases hedge.1 with h | h | h | h
        · exact absurd (Or.inl h) hrow
        · exact absurd (Or.inr h) hrow
        · exact Or.inl h
        · exact Or.inr h
      have h1 : min 7 (row + 1) + 1 - (row - 1) ≤ 3 := by omega
      have h2 : min 15 (col + 1) + 1 - (col - 1) ≤ 2 := by omega
      have h3 := Nat.mul_le_mul h1 h2
      omega

/-- C5 witness: the corner coordinate (0, 0) on the initial pattern. -/
theorem neighbor_count_range_witness :
    0 < 8 ∧ 0 < 16 ∧
      (count_neighbors_bounded initState 0 0 ≤ 8 ∧
       count_neighbors_torus initState 0 0 ≤ 8 ∧
       ((((0 : Nat) = 0 ∨ (0 : Nat) = 7) ∧ ((0 : Nat) = 0 ∨ (0 : Nat) = 15)) →
         count_neighbors_bounded initState 0 0 ≤ 3) ∧
       ((((0 : Nat) = 0 ∨ (0 : Nat) = 7 ∨ (0 : Nat) = 0 ∨ (0 : Nat) = 15) ∧
           ¬(((0 : Nat) = 0 ∨ (0 : Nat) = 7) ∧ ((0 : Nat) = 0 ∨ (0 : Nat) = 15))) →
         count_neighbors_bounded initState 0 0 ≤ 5)) :=
  ⟨by norm_num, by norm_num,
    neighbor_count_range initState 0 0 (by norm_num) (by norm_num)⟩

/-- C6: for an at-rest grid, `show_state` writes brightness 15 into a
framebuffer cell exactly when the grid cell's alive bit is 1, and 0
otherwise, at every in-bounds coordinate and for any prior framebuffer. -/
theorem show_state_spec (g img : Grid) (row col : Nat)
    (hg : AtRest g) (hr : row < 8) (hc : col < 16) :
    show_state g img row col = if g row col &&& 1 = 1 then 15 else 0 := by
  unfold show_state
  rw [render_foldl_mem g coords img row col (mem_coords row hr col hc)]
  rcases hg row hr col hc with h0 | h0 <;> simp [h0]

/-- C6 witness: the live cell (1, 5) of the initial pattern renders as 15
into the zero framebuffer. -/
theorem show_state_spec_witness :
    AtRest initState ∧ 1 < 8 ∧ 5 < 16 ∧
      show_state initState zeroImage 1 5 =
        if initState 1 5 &&& 1 = 1 then 15 else 0 :=
  ⟨atRest_init, by norm_num, by norm_num,
    show_state_spec initState zeroImage 1 5 atRest_init (by norm_num) (by norm_num)⟩

/-- C9: rendering the same grid twice in a row yields the same framebuffer
as rendering it once, for any grid and any prior framebuffer contents. -/
theorem show_state_idempotent (g img : Grid) :
    show_state g (show_state g img) = show_state g img := by
  funext r c
  by_cases h : (r, c) ∈ coords
  · unfold show_state
    rw [render_foldl_mem g coords _ r c h, render_foldl_mem g coords img r c h]
  · unfold show_state
    rw [foldl_local_notmem (renderCell g) (renderCell_other g) coords _ r c h]

/-- The fixed per-generation frame duration (`frame_duration = 8`). -/
def frame_duration : Int := 8

/-- The mutable state of the main loop: the automaton grid, the display
framebuffer (`array.array`), the `i32` frame countdown, and the heartbeat
LED level (`red_led`, initially driven low in `setup`). -/
structure LoopState where
  state : Grid
  image : Grid
  frame_timeout : Int
  led : Bool

/-- Observable actions of one main-loop iteration, in program order:
rendering (`show_state`), stepping (`step_state`), servicing the display
(`array.scan`), and toggling the heartbeat LED. -/
inductive Event where
  | render
  | stepEvt
  | scan
  | toggle
deriving DecidableEq

/-- Number of occurrences of an event in a trace. -/
def countEvents (e : Event) : List Event → Nat
  | [] => 0
  | x :: xs => (if x = e then 1 else 0) + countEvents e xs

/-- One iteration of the `loop` in `main`, returning the new state and the
trace of observable actions.  `scanFails` models the `Result` of
`array.scan(base_scan_freq)`, which the source discards with
`.unwrap_or(())`. -/
def loopBody (scanFails : Bool) (s : LoopState) : LoopState × List Event :=
  let gate :=
    if s.frame_timeout = 0 then
      ({ s with image := show_state s.state s.image,
                state := step_state s.state,
                frame_timeout := frame_duration },
       [Event.render, Event.stepEvt])
    else (s, ([] : List Event))
  let s2 := { gate.1 with frame_timeout := gate.1.frame_timeout - 1 }
  let _ : Except Unit Unit := if scanFails then Except.error () else Except.ok ()
  let s3 := { s2 with led := !s2.led }
  (s3, gate.2 ++ [Event.scan, Event.toggle])

/-- Running the main loop for a number of iterations, concatenating the
iteration traces.  The scan result is irrelevant to the state (see
`scan_each_iteration_error_ignored`), so it is fixed here. -/
def runLoop : Nat → LoopState → LoopState × List Event
  | 0, s => (s, [])
  | n + 1, s =>
    ((runLoop n (loopBody false s).1).1,
     (loopBody false s).2 ++ (runLoop n (loopBody false s).1).2)

/-- The state just before the loop in `main`, with an arbitrary initial
frame timeout `t` (the source uses `frame_timeout = 100`): the hard-coded
grid, the framebuffer rendered once pre-loop, and the LED driven low. -/
def initLoopStateT (t : Int) : LoopState :=
  { state := initState, image := show_state initState zeroImage,
    frame_timeout := t, led := false }

/-- The state just before the loop in `main`, exactly as in the source. -/
def initLoopState : LoopState := initLoopStateT 100

/-- Traces concatenate event counts. -/
theorem countEvents_append (e : Event) (l1 l2 : List Event) :
    countEvents e (l1 ++ l2) = countEvents e l1 + countEvents e l2 := by
  induction l1 with
  | nil => simp [countEvents]
  | cons x xs ih => simp [countEvents, ih]; omega

/-- Each loop iteration performs exactly one display-service call. -/
theorem loopBody_scan_count (e : Bool) (s : LoopState) :
    countEvents Event.scan (loopBody e s).2 = 1 := by
  unfold loopBody
  split_ifs <;> simp [countEvents]

/-- Over any run, the display-service call count equals the iteration
count. -/
theorem runLoop_scan_count (n : Nat) :
    ∀ s : LoopState, countEvents Event.scan (runLoop n s).2 = n := by
  induction n with
  | zero => intro s; simp [runLoop, countEvents]
  | succ n ih =>
    intro s
    simp only [runLoop]
    rw [countEvents_append, loopBody_scan_count, ih]
    omega

/-- The loop body when the timing gate fires: render the current grid, step
it, reset the countdown to the frame duration, then decrement it, service
the display and toggle the heartbeat. -/
theorem loopBody_fired (e : Bool) (s : LoopState) (h : s.frame_timeout = 0) :
    loopBody e s =
      ({ state := step_state s.state, image := show_state s.state s.image,
         frame_timeout := frame_duration - 1, led := !s.led },
       [Event.render, Event.stepEvt, Event.scan, Event.toggle]) := by
  simp [loopBody, h]

/-- The loop body when the timing gate does not fire: only decrement the
countdown, service the display and toggle the heartbeat. -/
theorem loopBody_idle (e : Bool) (s : LoopState) (h : ¬s.frame_timeout = 0) :
    loopBody e s =
      ({ state := s.state, image := s.image,
         frame_timeout := s.frame_timeout - 1, led := !s.led },
       [Event.scan, Event.toggle]) := by
  simp [loopBody, h]

/-- Countdown value and generation count after any number of loop
iterations, for any nonnegative starting countdown: the countdown follows
the reset-then-decrement discipline, and the first step happens on
iteration `t + 1`, with one more step every 8 iterations after that. -/
theorem runLoop_spec (n : Nat) :
    ∀ s : LoopState, 0 ≤ s.frame_timeout →
      ((runLoop n s).1.frame_timeout =
         if (n : Int) ≤ s.frame_timeout then s.frame_timeout - n
         else 7 - (((n : Int) - s.frame_timeout - 1) % 8)) ∧
      ((countEvents Event.stepEvt (runLoop n s).2 : Int) =
         if (n : Int) ≤ s.frame_timeout then 0
         else ((n : Int) - s.frame_timeout - 1) / 8 + 1) := by
  induction n with
  | zero =>
    intro s h
    constructor
    · simp only [runLoop]
      split_ifs <;> omega
    · simp only [runLoop, countEvents]
      split_ifs <;> omega
  | succ n ih =>
    intro s h
    by_cases ht : s.frame_timeout = 0
    · have hft : (loopBody false s).1.frame_timeout = frame_duration - 1 := by
        rw [loopBody_fired false s ht]
      have htr : (loopBody false s).2 =
          [Event.render, Event.stepEvt, Event.scan, Event.toggle] := by
        rw [loopBody_fired false s ht]
      have h1 := ih (loopBody false s).1 (by rw [hft]; norm_num [frame_duration])
      obtain ⟨hA, hB⟩ := h1
      rw [hft] at hA hB
      simp only [frame_duration] at hA hB
      constructor
      · simp only [runLoop]
        rw [hA]
        split_ifs <;> omega
      · simp only [runLoop]
        rw [countEvents_append, htr]
        simp [countEvents]
        split_ifs at hB ⊢ <;> omega
    · have hft : (loopBody false s).1.frame_timeout = s.frame_timeout - 1 := by
        rw [loopBody_idle false s ht]
      have htr : (loopBody false s).2 = [Event.scan, Event.toggle] := by
        rw [loopBody_idle false s ht]
      have h1 := ih (loopBody false s).1 (by rw [hft]; omega)
      obtain ⟨hA, hB⟩ := h1
      rw [hft] at hA hB
      constructor
      · simp only [runLoop]
        rw [hA]
        split_ifs <;> omega
      · simp only [runLoop]
        rw [countEvents_append, htr]
        simp [countEvents]
        split_ifs at hB ⊢ <;> omega

/-- C3 (amended): over `N` loop iterations with the code's frame duration 8
and initial frame timeout `T`, `step_state` is called zero times when
`N ≤ T`, and exactly `floor((N - T - 1) / 8) + 1` times when `N ≥ T + 1`
(the gate is checked before the countdown is decremented, so the first step
happens on iteration `T + 1`, not `T`). -/
theorem scheduler_cadence (T N : Nat) :
    (countEvents Event.stepEvt (runLoop N (initLoopStateT T)).2 : Int) =
      if (N : Int) ≤ (T : Int) then 0 else ((N : Int) - T - 1) / 8 + 1 := by
  have h := (runLoop_spec N (initLoopStateT T) (by
    simp only [initLoopStateT]
    exact Int.natCast_nonneg T)).2
  simpa only [initLoopStateT] using h

/-- C3 counterexample: with the source's initial timeout `T = 100` and
frame duration 8, after `N = 100` iterations (so `N ≥ T`) the claim's
formula `floor((N - T)/8) + 1` gives 1 step, but the code has performed
zero steps: the first step only happens on iteration 101. -/
theorem scheduler_cadence_cex :
    ¬ ((countEvents Event.stepEvt (runLoop 100 initLoopState).2 : Int) =
        ((100 : Int) - 100) / 8 + 1) := by
  have h := (runLoop_spec 100 initLoopState (by norm_num [initLoopState, initLoopStateT])).2
  have hft : initLoopState.frame_timeout = 100 := rfl
  rw [hft] at h
  norm_num at h
  norm_num [h]

/-- C7: on every loop iteration the display-service operation runs exactly
once (whether or not the timing gate fired), and its error result is
discarded: the iteration's resulting state and trace are identical whether
the scan succeeds or fails, so over any run the scan count equals the
iteration count. -/
theorem scan_each_iteration_error_ignored (e eA : Bool) (s : LoopState) (n : Nat) :
    loopBody e s = loopBody eA s ∧
    countEvents Event.scan (loopBody e s).2 = 1 ∧
    countEvents Event.scan (runLoop n s).2 = n :=
  ⟨rfl, loopBody_scan_count e s, runLoop_scan_count n s⟩

/-- C8: whenever the timing gate fires (`frame_timeout == 0`), the
iteration's trace is exactly render, then step, then scan, then toggle;
the framebuffer written that iteration renders the pre-step grid, and the
grid is advanced from that same rendered generation (one-generation
display lag). -/
theorem render_before_step_order (e : Bool) (s : LoopState)
    (h : s.frame_timeout = 0) :
    (loopBody e s).2 = [Event.render, Event.stepEvt, Event.scan, Event.toggle] ∧
    (loopBody e s).1.image = show_state s.state s.image ∧
    (loopBody e s).1.state = step_state s.state := by
  rw [loopBody_fired e s h]
  exact ⟨rfl, rfl, rfl⟩

/-- A concrete loop state whose timing gate is about to fire. -/
def loopStateAtGate : LoopState :=
  { state := initState, image := zeroImage, frame_timeout := 0, led := false }

/-- C8 witness: the gate state with the hard-coded pattern and countdown 0. -/
theorem render_before_step_order_witness :
    loopStateAtGate.frame_timeout = 0 ∧
    ((loopBody false loopStateAtGate).2 =
        [Event.render, Event.stepEvt, Event.scan, Event.toggle] ∧
      (loopBody false loopStateAtGate).1.image =
        show_state loopStateAtGate.state loopStateAtGate.image ∧
      (loopBody false loopStateAtGate).1.state = step_state loopStateAtGate.state) :=
  ⟨rfl, render_before_step_order false loopStateAtGate rfl⟩

/-- C10: starting from the source's initial state, the frame countdown is
nonnegative at the start of every iteration, and the value the decrement is
applied to (after the gate's reset, if any) is always at least 1, so the
countdown never goes below zero. -/
theorem frame_timeout_nonneg (n : Nat) :
    0 ≤ (runLoop n initLoopState).1.frame_timeout ∧
    1 ≤ (if (runLoop n initLoopState).1.frame_timeout = 0 then frame_duration
         else (runLoop n initLoopState).1.frame_timeout) := by
  have h := (runLoop_spec n initLoopState (by norm_num [initLoopState, initLoopStateT])).1
  have hft : initLoopState.frame_timeout = 100 := rfl
  rw [hft] at h
  rw [h]
  simp only [frame_duration]
  constructor <;> split_ifs <;> omega
